import Mathlib

/-!
Verification of `pytorch_lightning/utilities/parsing.py`,
`pytorch_lightning/plugins/precision/sharded_native_amp.py` and the sharded
checkpointing contract of the `Benjamin-Etheredge/pytorch-lightning` tree.

Python dicts are embedded as association lists `List (String × α)` with
insertion-order semantics (first occurrence of a key is the binding; real
dicts never hold a duplicate key, which appears as a `Nodup` hypothesis where
it matters).  Python exceptions are embedded as the `Except PyError` monad.
Mutating functions are embedded as functions returning the new state.
-/

set_option autoImplicit false
set_option linter.unusedVariables false

namespace PLV

/-- Python exception classes that the embedded code can raise. -/
inductive PyError where
  | keyError : String → PyError
  | attributeError : String → PyError
  | valueError : String → PyError
  | typeError : String → PyError
  | indexError : String → PyError
deriving DecidableEq, Repr

/-! ### Python dict primitives -/

variable {α : Type}

/-- dict lookup: value of the binding of key `k`, if any (`d.get(k)`). -/
def dictGet (d : List (String × α)) (k : String) : Option α :=
  (d.find? (fun kv => kv.1 == k)).map (fun kv => kv.2)

/-- Python `d[k]`: the value bound to `k`, or a `KeyError`. -/
def dictGetItem (d : List (String × α)) (k : String) : Except PyError α :=
  match dictGet d k with
  | some v => Except.ok v
  | none => Except.error (PyError.keyError k)

/-- Python `d[k] = v`: replace the binding of `k` in place, else append it. -/
def dictSet : List (String × α) → String → α → List (String × α)
  | [], k, v => [(k, v)]
  | kv :: t, k, v => if kv.1 == k then (k, v) :: t else kv :: dictSet t k v

/-- Python `k in d`-test on keys. -/
def dictHasKey (d : List (String × α)) (k : String) : Bool :=
  (dictGet d k).isSome

/-- Python `del d[k]` for every `k` in `ks` (absent keys never occur at the
call sites below). -/
def dictDelKeys (d : List (String × α)) (ks : List String) : List (String × α) :=
  d.filter (fun kv => !(ks.contains kv.1))

/-- Python `d.update(e)`: bind every entry of `e` in `d`, left to right. -/
def dictUpdate (d e : List (String × α)) : List (String × α) :=
  e.foldl (fun acc kv => dictSet acc kv.1 kv.2) d

/-! ### `str_to_bool_or_str`, `str_to_bool`, `str_to_bool_or_int`
(parsing.py lines 32-85) -/

/-- Python `str.lower()`, character by character (the inputs of interest are
ASCII). -/
def pyLower (s : String) : String :=
  String.mk (s.data.map Char.toLower)

/-- the true-strings of `str_to_bool_or_str` (parsing.py line 39). -/
def trueValues : List String := ["y", "yes", "t", "true", "on", "1"]

/-- the false-strings of `str_to_bool_or_str` (parsing.py line 41). -/
def falseValues : List String := ["n", "no", "f", "false", "off", "0"]

/-- parsing.py lines 32-43: possibly convert a string representation of truth
to bool, returning the input string unchanged otherwise. -/
def str_to_bool_or_str (val : String) : Sum String Bool :=
  let lower := pyLower val
  if trueValues.contains lower then Sum.inr true
  else if falseValues.contains lower then Sum.inr false
  else Sum.inl val

/-- parsing.py lines 46-64: convert a string representation of truth to bool,
raising `ValueError` otherwise. -/
def str_to_bool (val : String) : Except PyError Bool :=
  match str_to_bool_or_str val with
  | Sum.inr b => Except.ok b
  | Sum.inl s => Except.error (PyError.valueError ("invalid truth value " ++ s))

/-- parsing.py lines 67-85: convert to bool if possible, else try int, else
return the string (`String.toInt?` stands in for Python `int(...)`). -/
def str_to_bool_or_int (val : String) : Sum String (Sum Bool Int) :=
  match str_to_bool_or_str val with
  | Sum.inr b => Sum.inr (Sum.inl b)
  | Sum.inl s =>
    match s.toInt? with
    | some n => Sum.inr (Sum.inr n)
    | none => Sum.inl s

/-! ### `clean_namespace` (parsing.py lines 98-109)

`is_picklable` (lines 88-95) calls the external `pickle.dumps`, so it enters
the embedding as an oracle `is_picklable : α → Bool`.  A `Namespace` argument
is handled through its `__dict__`, so both branches of the union type are the
same association list here. -/

/-- parsing.py lines 98-109: remove all unpicklable entries from hparams. -/
def clean_namespace (is_picklable : α → Bool) (hparams : List (String × α)) :
    List (String × α) :=
  let del_attrs := (hparams.filter (fun kv => !(is_picklable kv.2))).map Prod.fst
  dictDelKeys hparams del_attrs

/-! ### `parse_class_init_keys` (parsing.py lines 112-140)

An `inspect.Parameter` is embedded as its name and kind; a class enters the
embedding as the ordered parameter list of its `__init__` signature. -/

/-- the `inspect._ParameterKind` enumeration. -/
inductive ParamKind where
  | positionalOnly
  | positionalOrKeyword
  | varPositional
  | keywordOnly
  | varKeyword
deriving DecidableEq, Repr

/-- one parameter of an `inspect.Signature`. -/
structure Param where
  name : String
  kind : ParamKind
deriving DecidableEq, Repr

/-- parsing.py lines 128-135: name of the first parameter of the given kind,
if any. -/
def _get_first_if_any (params : List Param) (param_type : ParamKind) :
    Option String :=
  match params.find? (fun p => p.kind == param_type) with
  | some p => some p.name
  | none => none

/-- parsing.py lines 112-140: `(n_self, n_args, n_kwargs)` for a signature.
`init_params[0]` raises `IndexError` on an empty signature, embedded as
`none`. -/
def parse_class_init_keys (init_params : List Param) :
    Option (String × Option String × Option String) :=
  match init_params with
  | [] => none
  | p :: _ =>
    some (p.name, _get_first_if_any init_params ParamKind.varPositional,
      _get_first_if_any init_params ParamKind.varKeyword)

/-! ### `get_init_args` / `collect_init_args` (parsing.py lines 143-188)

A Python runtime value is embedded as `Val`; a class value carries the
parameter list of its `__init__` signature.  A stack frame is embedded as its
local-variable dict, and a finite chain of frames (following `f_back`) as a
`List Frame`; the end of the list is the missing parent frame. -/

/-- a Python runtime value, as far as these helpers inspect it. -/
inductive Val where
  | int : Int → Val
  | str : String → Val
  | dict : List (String × Val) → Val
  | pyclass : List Param → Val

/-- a Python dict of runtime values. -/
abbrev PyDict := List (String × Val)

/-- a stack frame: its local variables (`inspect.getargvalues(frame)[3]`). -/
abbrev Frame := PyDict

/-- the dict comprehension `{k: local_vars[k] for k in keys}`: `KeyError` when
a key is missing from the locals. -/
def collectLocals (local_vars : PyDict) : List String → Except PyError PyDict
  | [] => Except.ok []
  | k :: ks =>
    match dictGet local_vars k with
    | none => Except.error (PyError.keyError k)
    | some v =>
      match collectLocals local_vars ks with
      | Except.error e => Except.error e
      | Except.ok rest => Except.ok ((k, v) :: rest)

/-- parsing.py lines 143-158: the constructor arguments visible in an
`__init__` frame.  Returns `{}` when `__class__` is absent; collects the
locals named by the signature, merges the `**kwargs` dict into them, and
drops `self`/`*args`/`**kwargs`/bookkeeping names. -/
def get_init_args (frame : Frame) : Except PyError PyDict :=
  match dictGet frame "__class__" with
  | none => Except.ok []
  | some c =>
    match c with
    | Val.pyclass init_parameters =>
      match parse_class_init_keys init_parameters with
      | none => Except.error (PyError.indexError "list index out of range")
      | some (self_var, args_var, kwargs_var) =>
        let filtered_vars := [self_var] ++ args_var.toList ++ kwargs_var.toList
        let exclude_argnames := filtered_vars ++ ["__class__", "frame", "frame_args"]
        match collectLocals frame (init_parameters.map Param.name) with
        | Except.error e => Except.error e
        | Except.ok local_args =>
          match kwargs_var with
          | none =>
            Except.ok (local_args.filter (fun kv => !(exclude_argnames.contains kv.1)))
          | some kw =>
            match dictGet local_args kw with
            | none =>
              Except.ok (local_args.filter (fun kv => !(exclude_argnames.contains kv.1)))
            | some (Val.dict kwdict) =>
              Except.ok ((dictUpdate local_args kwdict).filter
                (fun kv => !(exclude_argnames.contains kv.1)))
            | some _ => Except.error (PyError.typeError "argument must be a mapping")
    | _ => Except.error (PyError.typeError "obj is not a class")

/-- parsing.py lines 161-188: walk the frame chain and collect the
constructor arguments of every consecutive `__init__` frame.  The walk stops
when the parent frame is missing (checked before the frame itself is
inspected), and — once `inside` the inheritance path — at the first frame
without `__class__`.  Termination is by construction: the recursion is
structural on the frame chain. -/
def collect_init_args : List Frame → List PyDict → Bool → Except PyError (List PyDict)
  | [], path_args, _ => Except.ok path_args
  | [_], path_args, _ => Except.ok path_args
  | frame :: parent :: rest, path_args, inside =>
    if dictHasKey frame "__class__" then
      match get_init_args frame with
      | Except.error e => Except.error e
      | Except.ok local_args =>
        collect_init_args (parent :: rest) (path_args ++ [local_args]) true
    else if !inside then collect_init_args (parent :: rest) path_args inside
    else Except.ok path_args

/-- the frames whose argument dicts `collect_init_args` appends: skip the
frames seen before entering the inheritance path, then take the consecutive
run of `__class__` frames, a frame being taken only when its parent exists. -/
def class_run : List Frame → Bool → List Frame
  | [], _ => []
  | [_], _ => []
  | frame :: parent :: rest, inside =>
    if dictHasKey frame "__class__" then frame :: class_run (parent :: rest) true
    else if !inside then class_run (parent :: rest) inside
    else []

/-- `get_init_args` on each frame in order, propagating the first error. -/
def collectEach : List Frame → Except PyError (List PyDict)
  | [] => Except.ok []
  | f :: t =>
    match get_init_args f with
    | Except.error e => Except.error e
    | Except.ok d =>
      match collectEach t with
      | Except.error e => Except.error e
      | Except.ok ds => Except.ok (d :: ds)

/-! ### `AttributeDict` (parsing.py lines 267-299) -/

/-- parsing.py lines 283-287, `AttributeDict.__getattr__`: `self[key]`, with
the dict `KeyError` caught and re-raised as an `AttributeError`. -/
def AttributeDict.getattr (d : List (String × α)) (key : String) : Except PyError α :=
  match dictGetItem d key with
  | Except.ok v => Except.ok v
  | Except.error (PyError.keyError _) =>
      Except.error (PyError.attributeError ("Missing attribute " ++ key))
  | Except.error e => Except.error e

/-- parsing.py lines 289-290, `AttributeDict.__setattr__`: `self[key] = val`. -/
def AttributeDict.setattr (d : List (String × α)) (key : String) (val : α) :
    List (String × α) :=
  dictSet d key val

/-! ### `lightning_getattr` / `lightning_setattr` (parsing.py lines 302-390)

A `LightningModule` is embedded as the three places these helpers look at: the
model namespace, the optional `hparams` container (`None` when the model has
no `hparams` attribute), and the optional datamodule (`None` when the model
has no trainer or the trainer has no datamodule).  An hparams `Namespace` and
an hparams dict behave identically at this level, as do attribute namespaces
and dicts, so each holder is an association list. -/

/-- the attribute holders `_lightning_get_all_attr_holders` inspects. -/
structure LightningModule (α : Type) where
  attrs : List (String × α)
  hparams : Option (List (String × α))
  datamodule : Option (List (String × α))

/-- which of the three holders an entry of the holder list denotes. -/
inductive Holder where
  | model
  | hparams
  | datamodule
deriving DecidableEq, Repr

/-- parsing.py lines 302-325: all of the objects or dicts that hold
`attribute`, in the order model namespace, hparams, datamodule. -/
def _lightning_get_all_attr_holders (m : LightningModule α) (attr_name : String) :
    List Holder :=
  (if dictHasKey m.attrs attr_name then [Holder.model] else []) ++
  (match m.hparams with
   | some hp => if dictHasKey hp attr_name then [Holder.hparams] else []
   | none => []) ++
  (match m.datamodule with
   | some dm => if dictHasKey dm attr_name then [Holder.datamodule] else []
   | none => [])

/-- parsing.py lines 328-338: the last holder of `attribute`, or `none`. -/
def _lightning_get_first_attr_holder (m : LightningModule α) (attr_name : String) :
    Option Holder :=
  (_lightning_get_all_attr_holders m attr_name).getLast?

/-- parsing.py lines 341-346: special `hasattr` for Lightning. -/
def lightning_hasattr (m : LightningModule α) (attr_name : String) : Bool :=
  (_lightning_get_first_attr_holder m attr_name).isSome

/-- the attribute read `holder[attribute]` / `getattr(holder, attribute)` on
one holder of the model. -/
def readHolder (m : LightningModule α) (attr_name : String) : Holder → Option α
  | Holder.model => dictGet m.attrs attr_name
  | Holder.hparams => dictGet (m.hparams.getD []) attr_name
  | Holder.datamodule => dictGet (m.datamodule.getD []) attr_name

/-- parsing.py lines 349-367: special `getattr` for Lightning, reading from
the last holder and raising `AttributeError` when there is none. -/
def lightning_getattr (m : LightningModule α) (attr_name : String) : Except PyError α :=
  match _lightning_get_first_attr_holder m attr_name with
  | none =>
    Except.error (PyError.attributeError (attr_name ++
      " is neither stored in the model namespace nor the hparams namespace/dict, nor the datamodule."))
  | some holder =>
    match readHolder m attr_name holder with
    | some v => Except.ok v
    | none => Except.error (PyError.keyError attr_name)

/-- the attribute write `holder[attribute] = value` /
`setattr(holder, attribute, value)` on one holder of the model. -/
def writeHolder (m : LightningModule α) (attr_name : String) (value : α) :
    Holder → LightningModule α
  | Holder.model => { m with attrs := dictSet m.attrs attr_name value }
  | Holder.hparams => { m with hparams := m.hparams.map (fun hp => dictSet hp attr_name value) }
  | Holder.datamodule =>
    { m with datamodule := m.datamodule.map (fun dm => dictSet dm attr_name value) }

/-- parsing.py lines 370-390: special `setattr` for Lightning, writing the
value into every holder and raising `AttributeError` when there is none. -/
def lightning_setattr (m : LightningModule α) (attr_name : String) (value : α) :
    Except PyError (LightningModule α) :=
  let holders := _lightning_get_all_attr_holders m attr_name
  if holders.isEmpty then
    Except.error (PyError.attributeError (attr_name ++
      " is neither stored in the model namespace nor the hparams namespace/dict, nor the datamodule."))
  else
    Except.ok (holders.foldl (fun acc h => writeHolder acc attr_name value h) m)

/-- whether the component a holder tag denotes exists on the model (the model
namespace always does; hparams and datamodule only when present). -/
def holderPresent (m : LightningModule α) : Holder → Bool
  | Holder.model => true
  | Holder.hparams => m.hparams.isSome
  | Holder.datamodule => m.datamodule.isSome

/-! ### `ShardedNativeMixedPrecisionPlugin.clip_grad_by_norm`
(sharded_native_amp.py lines 32-35)

The fairscale `OSS` optimizer is external; it is embedded as the log of
`clip_grad_norm` calls it has received, and its `clip_grad_norm` method as
appending to that log.  Python floats enter the embedding as rationals, and
the Python `None` return as `Option.none`. -/

/-- one delegated `optimizer.clip_grad_norm(clip_val, norm_type=norm_type)`
call. -/
structure ClipCall where
  clip_val : Rat
  norm_type : Rat
deriving DecidableEq, Repr

/-- the fairscale `OSS` optimizer, reduced to its `clip_grad_norm` call log. -/
structure OSS where
  clipCalls : List ClipCall
deriving DecidableEq, Repr

/-- the external `OSS.clip_grad_norm`: record the call. -/
def OSS.clip_grad_norm (optimizer : OSS) (clip_val : Rat) (norm_type : Rat) : OSS :=
  { clipCalls := optimizer.clipCalls ++ [{ clip_val := clip_val, norm_type := norm_type }] }

/-- sharded_native_amp.py lines 32-35: delegate gradient clipping to the
sharded optimizer and return `None`.  The result is the optimizer after the
call together with the returned value. -/
def ShardedNativeMixedPrecisionPlugin.clip_grad_by_norm (optimizer : OSS)
    (clip_val : Rat) (norm_type : Rat) (eps : Rat) : OSS × Option Rat :=
  (optimizer.clip_grad_norm clip_val norm_type, none)

/-! ### Sharded checkpoint save/restore (claims C1 and C2)

`Trainer.save_checkpoint`, `load_from_checkpoint` and the
`DDPSpawnShardedPlugin` training-type plugin are not among the source files;
only their tests are (`tests/plugins/test_sharded_plugin.py`).  The
definitions in this section are therefore modelled from the spec. -/

/-- Modelled from the spec: the distributed strategies of the missing
training-type plugin family that the checkpoint tests select through the
`accelerator` Trainer argument (spec section 1: DeepSpeed/sharded strategies
composed with a generic Trainer while preserving one checkpoint contract). -/
inductive Strategy where
  | default
  | ddp_sharded
  | ddp_sharded_spawn
deriving DecidableEq, Repr

/-- Modelled from the spec: the device/process configuration of a missing
`Trainer` (`num_processes=2` on CPU, `gpus=n` on GPU). -/
inductive DeviceConfig where
  | cpu : Nat → DeviceConfig
  | gpu : Nat → DeviceConfig
deriving DecidableEq, Repr

/-- the number of worker processes of a device configuration. -/
def DeviceConfig.worldSize : DeviceConfig → Nat
  | DeviceConfig.cpu num_processes => num_processes
  | DeviceConfig.gpu gpus => gpus

/-- Modelled from the spec: how many processes a strategy trains with; the
default (non-distributed) Trainer runs a single process. -/
def Strategy.worldSize : Strategy → DeviceConfig → Nat
  | Strategy.default, _ => 1
  | Strategy.ddp_sharded, cfg => cfg.worldSize
  | Strategy.ddp_sharded_spawn, cfg => cfg.worldSize

/-- Modelled from the spec: the state one training process holds under a
sharded data-parallel strategy — the full (replicated) model parameters and
this rank's shard of the optimizer state (spec section 1: strategies
partition optimizer state across processes). -/
structure RankState where
  params : List Int
  optShard : List Int
deriving DecidableEq, Repr

/-- Modelled from the spec: the checkpoint file contents — the consolidated
model state dict and the consolidated optimizer state (spec section 1:
consistent distributed checkpoint save/restore with rank-aware I/O). -/
structure Checkpoint where
  state_dict : List Int
  optimizer_state : List Int
deriving DecidableEq, Repr

/-- Modelled from the spec: the full logical training state a checkpoint must
restore. -/
structure TrainState where
  params : List Int
  optimizer_state : List Int
deriving DecidableEq, Repr

/-- Modelled from the spec: partition the optimizer state across `world`
processes — ranks `0 .. world-2` take consecutive chunks of
`len / world` entries, the last rank takes the rest. -/
def shardOptimizerState (world : Nat) (st : List Int) : List (List Int) :=
  let chunk := st.length / world
  ((List.range (world - 1)).map (fun r => ((st.drop (r * chunk)).take chunk))) ++
    [st.drop ((world - 1) * chunk)]

/-- Modelled from the spec: consolidate the per-rank optimizer shards back
into the full optimizer state on save. -/
def consolidateOptimizerState (shards : List (List Int)) : List Int :=
  shards.flatten

/-- Modelled from the spec: the per-rank states after training with `world`
processes — parameters replicated, optimizer state sharded. -/
def trainRanks (world : Nat) (params : List Int) (optimizer_state : List Int) :
    List RankState :=
  (shardOptimizerState world optimizer_state).map
    (fun sh => { params := params, optShard := sh })

/-- Modelled from the spec: `Trainer.save_checkpoint` — rank-aware I/O writes
one checkpoint holding rank 0's (replicated) parameters and the optimizer
state consolidated across all ranks. -/
def save_checkpoint (ranks : List RankState) : Checkpoint :=
  { state_dict := (ranks.headD { params := [], optShard := [] }).params,
    optimizer_state := consolidateOptimizerState (ranks.map RankState.optShard) }

/-- Modelled from the spec: the checkpoint a Trainer produces after training
under `strategy` on `cfg` from logical state `(params, optimizer_state)`. -/
def produceCheckpoint (strategy : Strategy) (cfg : DeviceConfig)
    (params : List Int) (optimizer_state : List Int) : Checkpoint :=
  save_checkpoint (trainRanks (strategy.worldSize cfg) params optimizer_state)

/-- Modelled from the spec: `LightningModule.load_from_checkpoint` — rebuild
the model parameters from the checkpoint's state dict. -/
def load_from_checkpoint (ck : Checkpoint) : List Int :=
  ck.state_dict

/-- Modelled from the spec: resuming `Trainer.fit` from a checkpoint under
any strategy restores the full logical training state from the checkpoint,
independently of the strategy and device configuration now in use. -/
def fitFromCheckpoint (strategy : Strategy) (cfg : DeviceConfig) (ck : Checkpoint) :
    TrainState :=
  { params := ck.state_dict, optimizer_state := ck.optimizer_state }

/-! ## Theorems -/

/-! ### dict lemmas -/

@[simp]
theorem dictGet_nil (k : String) : dictGet ([] : List (String × α)) k = none := rfl

@[simp]
theorem dictGet_cons (kv : String × α) (t : List (String × α)) (k : String) :
    dictGet (kv :: t) k = if kv.1 == k then some kv.2 else dictGet t k := by
  by_cases h : kv.1 == k <;> simp [dictGet, List.find?_cons, h]

theorem dictGet_dictSet_same (d : List (String × α)) (k : String) (v : α) :
    dictGet (dictSet d k v) k = some v := by
  induction d with
  | nil => simp [dictSet]
  | cons kv t ih =>
    by_cases h : kv.1 == k
    · simp [dictSet, h]
    · simp [dictSet, h, ih]

theorem dictGet_dictSet_other (d : List (String × α)) (k k2 : String) (v : α)
    (hne : k2 ≠ k) : dictGet (dictSet d k v) k2 = dictGet d k2 := by
  induction d with
  | nil =>
    have hb : (k == k2) = false := beq_false_of_ne (fun h => hne h.symm)
    simp [dictSet, hb]
  | cons kv t ih =>
    by_cases h : kv.1 == k
    · have hk : kv.1 = k := beq_iff_eq.mp h
      have hb : (k == k2) = false := beq_false_of_ne (fun h2 => hne h2.symm)
      simp [dictSet, h, hb, hk]
    · simp [dictSet, h, ih]

/-- a dict with `Nodup` keys binds a key to at most one value. -/
theorem dictKeyUnique {d : List (String × α)} (hnd : (d.map Prod.fst).Nodup)
    {k : String} {v w : α} (h1 : (k, v) ∈ d) (h2 : (k, w) ∈ d) : v = w := by
  induction d with
  | nil => cases h1
  | cons kv t ih =>
    rw [List.map_cons, List.nodup_cons] at hnd
    rcases List.mem_cons.mp h1 with h1h | h1t
    · rcases List.mem_cons.mp h2 with h2h | h2t
      · have h12 : ((k, v) : String × α) = (k, w) := h1h.trans h2h.symm
        exact congrArg Prod.snd h12
      · exfalso
        have hk2 : k ∈ t.map Prod.fst := List.mem_map_of_mem Prod.fst h2t
        have hk1 : kv.1 = k := by rw [← h1h]
        exact hnd.1 (by rw [hk1]; exact hk2)
    · rcases List.mem_cons.mp h2 with h2h | h2t
      · exfalso
        have hk1 : k ∈ t.map Prod.fst := List.mem_map_of_mem Prod.fst h1t
        have hk2 : kv.1 = k := by rw [← h2h]
        exact hnd.1 (by rw [hk2]; exact hk1)
      · exact ih hnd.2 h1t h2t

/-! ### claims C9, C5, C6 -/

/-- no string is both a true-string and a false-string. -/
theorem true_false_disjoint {s : String} (h1 : s ∈ trueValues)
    (h2 : s ∈ falseValues) : False := by
  simp [trueValues] at h1
  rcases h1 with rfl | rfl | rfl | rfl | rfl | rfl <;> revert h2 <;> decide

/-- C9: `str_to_bool val` is `True` exactly when `val.lower()` is a
true-string, `False` exactly when it is a false-string, raises `ValueError`
on every other string, and its outcome depends only on the lowercase form of
the input. -/
theorem str_to_bool_spec (val : String) :
    (str_to_bool val = Except.ok true ↔ pyLower val ∈ trueValues)
    ∧ (str_to_bool val = Except.ok false ↔ pyLower val ∈ falseValues)
    ∧ (pyLower val ∉ trueValues → pyLower val ∉ falseValues →
        str_to_bool val =
          Except.error (PyError.valueError ("invalid truth value " ++ val)))
    ∧ (∀ w : String, pyLower w = pyLower val →
        (str_to_bool w).toOption = (str_to_bool val).toOption) := by
  refine ⟨?_, ?_, ?_, ?_⟩
  · by_cases ht : pyLower val ∈ trueValues <;>
      by_cases hf : pyLower val ∈ falseValues <;>
      simp [str_to_bool, str_to_bool_or_str, ht, hf]
  · by_cases ht : pyLower val ∈ trueValues
    · by_cases hf : pyLower val ∈ falseValues
      · exact (true_false_disjoint ht hf).elim
      · simp [str_to_bool, str_to_bool_or_str, ht, hf]
    · by_cases hf : pyLower val ∈ falseValues <;>
        simp [str_to_bool, str_to_bool_or_str, ht, hf]
  · intro ht hf
    simp [str_to_bool, str_to_bool_or_str, ht, hf]
  · intro w hw
    by_cases ht : pyLower val ∈ trueValues <;>
      by_cases hf : pyLower val ∈ falseValues <;>
      simp [str_to_bool, str_to_bool_or_str, hw, ht, hf, Except.toOption]

/-- witness for C9 at the concrete inputs "YES", "off" and "maybe". -/
theorem str_to_bool_spec_witness :
    (pyLower "YES" ∈ trueValues)
    ∧ (pyLower "maybe" ∉ trueValues)
    ∧ (pyLower "maybe" ∉ falseValues)
    ∧ str_to_bool "maybe" =
        Except.error (PyError.valueError ("invalid truth value " ++ "maybe"))
    ∧ str_to_bool "YES" = Except.ok true
    ∧ str_to_bool "off" = Except.ok false :=
  ⟨by decide, by decide, by decide,
    (str_to_bool_spec "maybe").2.2.1 (by decide) (by decide),
    (str_to_bool_spec "YES").1.mpr (by decide),
    (str_to_bool_spec "off").2.1.mpr (by decide)⟩

/-- C5: on an `AttributeDict`, attribute assignment is item assignment, the
value stored by `ad.k = v` is read back by `ad[k]`, attribute access returns
`ad[k]` whenever `k` is a key, and set-then-get returns the value just set. -/
theorem AttributeDict_dot_access (d : List (String × α)) (k : String) (v : α) :
    AttributeDict.setattr d k v = dictSet d k v
    ∧ dictGet (AttributeDict.setattr d k v) k = some v
    ∧ (∀ w, dictGet d k = some w → AttributeDict.getattr d k = Except.ok w)
    ∧ AttributeDict.getattr (AttributeDict.setattr d k v) k = Except.ok v := by
  refine ⟨rfl, dictGet_dictSet_same d k v, ?_, ?_⟩
  · intro w hw
    simp [AttributeDict.getattr, dictGetItem, hw]
  · simp [AttributeDict.getattr, dictGetItem, AttributeDict.setattr,
      dictGet_dictSet_same]

/-- witness for C5 on the concrete dict of the class docstring. -/
theorem AttributeDict_dot_access_witness :
    dictGet [("key1", (1 : Int))] "key1" = some 1
    ∧ AttributeDict.getattr [("key1", (1 : Int))] "key1" = Except.ok 1
    ∧ dictGet (AttributeDict.setattr [("key1", (1 : Int))] "key1" 2) "key1" = some 2 :=
  ⟨rfl, (AttributeDict_dot_access [("key1", (1 : Int))] "key1" 2).2.2.1 1 rfl,
    (AttributeDict_dot_access [("key1", (1 : Int))] "key1" 2).2.1⟩

/-- C6: attribute access on a missing key raises `AttributeError` (the dict
`KeyError` is caught and converted), and never raises `KeyError`. -/
theorem AttributeDict_getattr_missing (d : List (String × α)) (k : String)
    (h : dictGet d k = none) :
    AttributeDict.getattr d k =
      Except.error (PyError.attributeError ("Missing attribute " ++ k))
    ∧ ∀ s, AttributeDict.getattr d k ≠ Except.error (PyError.keyError s) := by
  constructor
  · simp [AttributeDict.getattr, dictGetItem, h]
  · intro s
    simp [AttributeDict.getattr, dictGetItem, h]

/-- C4: on a dict (or a Namespace through its `__dict__`) with no duplicate
keys, `clean_namespace` removes exactly the entries whose values are not
picklable; every picklable entry survives with its value unchanged. -/
theorem clean_namespace_spec (is_picklable : α → Bool) (hp : List (String × α))
    (hnd : (hp.map Prod.fst).Nodup) :
    clean_namespace is_picklable hp = hp.filter (fun kv => is_picklable kv.2)
    ∧ (∀ k v, (k, v) ∈ hp → is_picklable v = true →
        (k, v) ∈ clean_namespace is_picklable hp)
    ∧ (∀ k v, (k, v) ∈ clean_namespace is_picklable hp →
        (k, v) ∈ hp ∧ is_picklable v = true) := by
  have heq : clean_namespace is_picklable hp =
      hp.filter (fun kv => is_picklable kv.2) := by
    unfold clean_namespace dictDelKeys
    apply List.filter_congr
    intro kv hkv
    cases hpick : is_picklable kv.2 with
    | true =>
      have hnotin :
          kv.1 ∉ ((hp.filter (fun kv2 => !(is_picklable kv2.2))).map Prod.fst) := by
        intro hmem
        obtain ⟨x, hx, hxe⟩ := List.mem_map.mp hmem
        have hxf := List.mem_filter.mp hx
        have hxeq : ((kv.1, x.2) : String × α) = x := by
          rw [← hxe]
        have hveq : x.2 = kv.2 := dictKeyUnique hnd (hxeq ▸ hxf.1) hkv
        rw [hveq, hpick] at hxf
        exact absurd hxf.2 (by decide)
      simp [List.elem_iff, List.contains, hnotin]
    | false =>
      have hin :
          kv.1 ∈ ((hp.filter (fun kv2 => !(is_picklable kv2.2))).map Prod.fst) := by
        apply List.mem_map_of_mem Prod.fst
        exact List.mem_filter.mpr ⟨hkv, by rw [hpick]; rfl⟩
      simp [List.elem_iff, List.contains, hin]
  refine ⟨heq, ?_, ?_⟩
  · intro k v hmem hpick
    rw [heq]
    exact List.mem_filter.mpr ⟨hmem, hpick⟩
  · intro k v hmem
    rw [heq] at hmem
    exact List.mem_filter.mp hmem

/-- witness for C4 on a concrete two-entry dict with one unpicklable value. -/
theorem clean_namespace_spec_witness :
    (([("a", (1 : Int)), ("b", 2)].map Prod.fst).Nodup)
    ∧ clean_namespace (fun v => v == (1 : Int)) [("a", 1), ("b", 2)] =
        [("a", (1 : Int)), ("b", 2)].filter (fun kv => kv.2 == 1) :=
  ⟨by decide, (clean_namespace_spec (fun v => v == (1 : Int))
    [("a", 1), ("b", 2)] (by decide)).1⟩

/-- witness for C6 at a concrete dict and missing key. -/
theorem AttributeDict_getattr_missing_witness :
    dictGet [("key1", (1 : Int))] "nope" = none
    ∧ (AttributeDict.getattr [("key1", (1 : Int))] "nope" =
        Except.error (PyError.attributeError ("Missing attribute " ++ "nope"))
      ∧ ∀ s, AttributeDict.getattr [("key1", (1 : Int))] "nope" ≠
          Except.error (PyError.keyError s)) :=
  ⟨rfl, AttributeDict_getattr_missing [("key1", (1 : Int))] "nope" rfl⟩

/-! ### claim C7 -/

/-- `find?` returns the first element satisfying the predicate. -/
theorem find?_first {β : Type} (p : β → Bool) :
    ∀ (l : List β) (a : β),
      l.find? p = some a ↔
        ∃ l1 l2, l = l1 ++ a :: l2 ∧ p a = true ∧ ∀ x ∈ l1, p x = false := by
  intro l
  induction l with
  | nil =>
    intro a
    constructor
    · intro h; cases h
    · rintro ⟨l1, l2, heq, -, -⟩
      exact absurd heq (by simp)
  | cons x xs ih =>
    intro a
    by_cases hx : p x = true
    · rw [List.find?_cons_of_pos xs hx]
      constructor
      · intro h
        have hxa : x = a := by injection h
        subst hxa
        exact ⟨[], xs, rfl, hx, by intro y hy; cases hy⟩
      · rintro ⟨l1, l2, heq, hpa, hall⟩
        cases l1 with
        | nil =>
          simp only [List.nil_append, List.cons.injEq] at heq
          rw [heq.1]
        | cons y l1t =>
          exfalso
          simp only [List.cons_append, List.cons.injEq] at heq
          have hyf : p y = false := hall y (List.mem_cons_self y l1t)
          rw [← heq.1, hx] at hyf
          cases hyf
    · rw [List.find?_cons_of_neg xs hx]
      rw [ih a]
      have hx2 : p x = false := by
        cases hpx : p x
        · rfl
        · exact absurd hpx hx
      constructor
      · rintro ⟨l1, l2, heq, hpa, hall⟩
        refine ⟨x :: l1, l2, by rw [heq, List.cons_append], hpa, ?_⟩
        intro y hy
        rcases List.mem_cons.mp hy with rfl | hmem
        · exact hx2
        · exact hall y hmem
      · rintro ⟨l1, l2, heq, hpa, hall⟩
        cases l1 with
        | nil =>
          exfalso
          simp only [List.nil_append, List.cons.injEq] at heq
          rw [heq.1] at hx
          exact hx hpa
        | cons y l1t =>
          simp only [List.cons_append, List.cons.injEq] at heq
          exact ⟨l1t, l2, heq.2, hpa, fun z hz => hall z (List.mem_cons_of_mem y hz)⟩

/-- `_get_first_if_any` yields `none` exactly when no parameter has the kind. -/
theorem _get_first_if_any_eq_none (params : List Param) (k : ParamKind) :
    _get_first_if_any params k = none ↔ ∀ q ∈ params, q.kind ≠ k := by
  unfold _get_first_if_any
  cases hf : params.find? (fun p => p.kind == k) with
  | none =>
    rw [List.find?_eq_none] at hf
    simp only [true_iff]
    intro q hq
    have := hf q hq
    simpa using this
  | some p =>
    simp only [reduceCtorEq, false_iff, not_forall]
    have hp := List.find?_some hf
    have hmem := List.mem_of_find?_eq_some hf
    push_neg
    exact ⟨p, hmem, by simpa using hp⟩

/-- `_get_first_if_any` yields the name of the first parameter of the kind. -/
theorem _get_first_if_any_eq_some (params : List Param) (k : ParamKind) (nm : String) :
    _get_first_if_any params k = some nm ↔
      ∃ l1 q l2, params = l1 ++ q :: l2 ∧ q.kind = k ∧ q.name = nm
        ∧ ∀ q2 ∈ l1, q2.kind ≠ k := by
  unfold _get_first_if_any
  constructor
  · intro h
    cases hf : params.find? (fun p => p.kind == k) with
    | none => rw [hf] at h; cases h
    | some p =>
      rw [hf] at h
      have hnm : p.name = nm := by injection h
      obtain ⟨l1, l2, heq, hpk, hall⟩ := (find?_first _ params p).mp hf
      refine ⟨l1, p, l2, heq, by simpa using hpk, hnm, ?_⟩
      intro q2 hq2
      have := hall q2 hq2
      simpa using this
  · rintro ⟨l1, q, l2, heq, hqk, hqn, hall⟩
    have hf : params.find? (fun p => p.kind == k) = some q := by
      rw [find?_first]
      refine ⟨l1, l2, heq, by simpa using hqk, ?_⟩
      intro x hx
      have := hall x hx
      simpa using this
    rw [hf]
    simpa using hqn

/-- C7: `parse_class_init_keys` returns the name of the first parameter of
the `__init__` signature, the name of its first var-positional parameter (or
`None`), and the name of its first var-keyword parameter (or `None`). -/
theorem parse_class_init_keys_spec (init_params : List Param) (p0 : Param)
    (rest : List Param) (h : init_params = p0 :: rest) :
    ∃ n_args n_kwargs,
      parse_class_init_keys init_params = some (p0.name, n_args, n_kwargs)
      ∧ (n_args = none ↔ ∀ q ∈ init_params, q.kind ≠ ParamKind.varPositional)
      ∧ (∀ nm, n_args = some nm ↔
          ∃ l1 q l2, init_params = l1 ++ q :: l2
            ∧ q.kind = ParamKind.varPositional ∧ q.name = nm
            ∧ ∀ q2 ∈ l1, q2.kind ≠ ParamKind.varPositional)
      ∧ (n_kwargs = none ↔ ∀ q ∈ init_params, q.kind ≠ ParamKind.varKeyword)
      ∧ (∀ nm, n_kwargs = some nm ↔
          ∃ l1 q l2, init_params = l1 ++ q :: l2
            ∧ q.kind = ParamKind.varKeyword ∧ q.name = nm
            ∧ ∀ q2 ∈ l1, q2.kind ≠ ParamKind.varKeyword) := by
  subst h
  refine ⟨_, _, rfl, ?_, ?_, ?_, ?_⟩
  · exact _get_first_if_any_eq_none (p0 :: rest) ParamKind.varPositional
  · intro nm
    exact _get_first_if_any_eq_some (p0 :: rest) ParamKind.varPositional nm
  · exact _get_first_if_any_eq_none (p0 :: rest) ParamKind.varKeyword
  · intro nm
    exact _get_first_if_any_eq_some (p0 :: rest) ParamKind.varKeyword nm

/-- witness for C7 on the signature of the docstring example
`Model.__init__(self, hparams, *my_args, anykw=42, **my_kwargs)`. -/
theorem parse_class_init_keys_spec_witness :
    ∃ n_args n_kwargs,
      parse_class_init_keys
        [⟨"self", ParamKind.positionalOrKeyword⟩,
         ⟨"hparams", ParamKind.positionalOrKeyword⟩,
         ⟨"my_args", ParamKind.varPositional⟩,
         ⟨"anykw", ParamKind.keywordOnly⟩,
         ⟨"my_kwargs", ParamKind.varKeyword⟩] =
        some ("self", n_args, n_kwargs) := by
  obtain ⟨na, nk, heq, -⟩ :=
    parse_class_init_keys_spec
      [⟨"self", ParamKind.positionalOrKeyword⟩,
       ⟨"hparams", ParamKind.positionalOrKeyword⟩,
       ⟨"my_args", ParamKind.varPositional⟩,
       ⟨"anykw", ParamKind.keywordOnly⟩,
       ⟨"my_kwargs", ParamKind.varKeyword⟩]
      ⟨"self", ParamKind.positionalOrKeyword⟩
      [⟨"hparams", ParamKind.positionalOrKeyword⟩,
       ⟨"my_args", ParamKind.varPositional⟩,
       ⟨"anykw", ParamKind.keywordOnly⟩,
       ⟨"my_kwargs", ParamKind.varKeyword⟩] rfl
  exact ⟨na, nk, heq⟩

/-! ### claim C3 -/

/-- C3: `clip_grad_by_norm` delegates to the sharded optimizer, calling
`optimizer.clip_grad_norm(clip_val, norm_type=norm_type)` exactly once,
returns `None`, and does not use `eps`. -/
theorem clip_grad_by_norm_spec (optimizer : OSS) (clip_val norm_type eps : Rat) :
    (ShardedNativeMixedPrecisionPlugin.clip_grad_by_norm optimizer clip_val
        norm_type eps).1.clipCalls =
      optimizer.clipCalls ++ [{ clip_val := clip_val, norm_type := norm_type }]
    ∧ (ShardedNativeMixedPrecisionPlugin.clip_grad_by_norm optimizer clip_val
        norm_type eps).1.clipCalls.length = optimizer.clipCalls.length + 1
    ∧ (ShardedNativeMixedPrecisionPlugin.clip_grad_by_norm optimizer clip_val
        norm_type eps).2 = none
    ∧ ∀ eps2, ShardedNativeMixedPrecisionPlugin.clip_grad_by_norm optimizer
        clip_val norm_type eps2 =
      ShardedNativeMixedPrecisionPlugin.clip_grad_by_norm optimizer clip_val
        norm_type eps := by
  refine ⟨rfl, ?_, rfl, fun eps2 => rfl⟩
  simp [ShardedNativeMixedPrecisionPlugin.clip_grad_by_norm, OSS.clip_grad_norm]

/-! ### claims C1 and C2 (spec-modelled sharded checkpointing) -/

/-- flattening the first `n` equal chunks of a list takes its first
`n * chunk` entries. -/
theorem flatten_chunks (st : List Int) (chunk : Nat) :
    ∀ n : Nat,
      ((List.range n).map (fun r => ((st.drop (r * chunk)).take chunk))).flatten
        = st.take (n * chunk) := by
  intro n
  induction n with
  | zero => simp
  | succ m ih =>
    rw [List.range_succ, List.map_append, List.flatten_append]
    simp only [List.map_cons, List.map_nil, List.flatten_cons, List.flatten_nil,
      List.append_nil]
    rw [ih, Nat.succ_mul, List.take_add]

/-- consolidating the optimizer shards recovers the full optimizer state. -/
theorem consolidate_shard (world : Nat) (st : List Int) :
    consolidateOptimizerState (shardOptimizerState world st) = st := by
  unfold consolidateOptimizerState shardOptimizerState
  rw [List.flatten_append]
  simp only [List.flatten_cons, List.flatten_nil, List.append_nil]
  rw [flatten_chunks]
  exact List.take_append_drop _ st

/-- saving after sharded training writes the replicated parameters and the
consolidated optimizer state, for every world size. -/
theorem save_trainRanks (world : Nat) (p st : List Int) :
    save_checkpoint (trainRanks world p st) =
      { state_dict := p, optimizer_state := st } := by
  obtain ⟨sh0, shs, hA⟩ : ∃ sh0 shs,
      shardOptimizerState world st = sh0 :: shs := by
    cases h : shardOptimizerState world st with
    | nil =>
      exfalso
      unfold shardOptimizerState at h
      simp at h
    | cons a b => exact ⟨a, b, rfl⟩
  have hcons := consolidate_shard world st
  rw [hA] at hcons
  unfold save_checkpoint trainRanks
  rw [hA]
  simp only [List.map_cons, List.headD_cons, List.map_map]
  have hfun : (RankState.optShard ∘ fun sh =>
      ({ params := p, optShard := sh } : RankState)) = fun sh => sh := rfl
  rw [hfun, ← hcons]
  simp

/-- C1: after training under the sharded data-parallel strategy
(`ddp_sharded_spawn`), saving a checkpoint and loading it back yields exactly
the original model parameters, both on CPU with two processes and on `g ≥ 2`
GPUs; every parameter equals the corresponding original one. -/
theorem sharded_checkpoint_roundtrip (p st : List Int) (g : Nat) (hg : 2 ≤ g) :
    load_from_checkpoint
        (produceCheckpoint Strategy.ddp_sharded_spawn (DeviceConfig.cpu 2) p st) = p
    ∧ load_from_checkpoint
        (produceCheckpoint Strategy.ddp_sharded_spawn (DeviceConfig.gpu g) p st) = p
    ∧ (∀ i, (load_from_checkpoint
        (produceCheckpoint Strategy.ddp_sharded_spawn (DeviceConfig.cpu 2) p st)).getD i 0
        = p.getD i 0)
    ∧ (∀ i, (load_from_checkpoint
        (produceCheckpoint Strategy.ddp_sharded_spawn (DeviceConfig.gpu g) p st)).getD i 0
        = p.getD i 0) := by
  have h1 : load_from_checkpoint
      (produceCheckpoint Strategy.ddp_sharded_spawn (DeviceConfig.cpu 2) p st) = p := by
    unfold produceCheckpoint load_from_checkpoint
    rw [save_trainRanks]
  have h2 : load_from_checkpoint
      (produceCheckpoint Strategy.ddp_sharded_spawn (DeviceConfig.gpu g) p st) = p := by
    unfold produceCheckpoint load_from_checkpoint
    rw [save_trainRanks]
  exact ⟨h1, h2, fun i => by rw [h1], fun i => by rw [h2]⟩

/-- witness for C1 at two CPU processes and two GPUs on a concrete model. -/
theorem sharded_checkpoint_roundtrip_witness :
    2 ≤ 2
    ∧ load_from_checkpoint
        (produceCheckpoint Strategy.ddp_sharded_spawn (DeviceConfig.cpu 2)
          [1, 2, 3] [4, 5, 6, 7, 8]) = [1, 2, 3]
    ∧ load_from_checkpoint
        (produceCheckpoint Strategy.ddp_sharded_spawn (DeviceConfig.gpu 2)
          [1, 2, 3] [4, 5, 6, 7, 8]) = [1, 2, 3] :=
  ⟨by decide,
    (sharded_checkpoint_roundtrip [1, 2, 3] [4, 5, 6, 7, 8] 2 (by decide)).1,
    (sharded_checkpoint_roundtrip [1, 2, 3] [4, 5, 6, 7, 8] 2 (by decide)).2.1⟩

/-- C2: the checkpoint contents are the same whichever strategy and device
configuration produced them, so a checkpoint trained under the sharded
strategy can be fit by a default single-process Trainer and restores the
full training state after moving from GPUs to CPU processes. -/
theorem checkpoint_strategy_independent (p st : List Int) (s1 s2 : Strategy)
    (cfg1 cfg2 : DeviceConfig) (g n : Nat) :
    produceCheckpoint s1 cfg1 p st = produceCheckpoint s2 cfg2 p st
    ∧ fitFromCheckpoint Strategy.default (DeviceConfig.cpu n)
        (produceCheckpoint Strategy.ddp_sharded_spawn (DeviceConfig.gpu g) p st)
      = { params := p, optimizer_state := st }
    ∧ fitFromCheckpoint Strategy.ddp_sharded_spawn (DeviceConfig.cpu n)
        (produceCheckpoint Strategy.ddp_sharded_spawn (DeviceConfig.gpu g) p st)
      = { params := p, optimizer_state := st } := by
  refine ⟨?_, ?_, ?_⟩
  · unfold produceCheckpoint
    rw [save_trainRanks, save_trainRanks]
  · unfold produceCheckpoint fitFromCheckpoint
    rw [save_trainRanks]
  · unfold produceCheckpoint fitFromCheckpoint
    rw [save_trainRanks]

/-! ### claim C8 -/

/-- the walk of `collect_init_args` appends exactly the argument dicts of the
frames in `class_run`. -/
theorem collect_init_args_eq :
    ∀ (frames : List Frame) (path_args : List PyDict) (inside : Bool),
      collect_init_args frames path_args inside =
        (collectEach (class_run frames inside)).map (fun ds => path_args ++ ds) := by
  intro frames
  induction frames with
  | nil =>
    intro path_args inside
    simp [collect_init_args, class_run, collectEach, Except.map]
  | cons f rest ih =>
    intro path_args inside
    cases rest with
    | nil =>
      simp [collect_init_args, class_run, collectEach, Except.map]
    | cons g rest2 =>
      by_cases hc : dictHasKey f "__class__" = true
      · cases hg : get_init_args f with
        | error e =>
          simp [collect_init_args, class_run, collectEach, hc, hg, Except.map]
        | ok largs =>
          have hrec := ih (path_args ++ [largs]) true
          cases hce : collectEach (class_run (g :: rest2) true) with
          | error e =>
            rw [hce] at hrec
            simp [collect_init_args, class_run, collectEach, hc, hg, hce,
              Except.map] at hrec ⊢
            exact hrec
          | ok ds =>
            rw [hce] at hrec
            simp [collect_init_args, class_run, collectEach, hc, hg, hce,
              Except.map] at hrec ⊢
            exact hrec
      · cases hi : inside with
        | false =>
          have hrec := ih path_args false
          simp [collect_init_args, class_run, hc, hrec]
        | true =>
          simp [collect_init_args, class_run, collectEach, hc, Except.map]

/-- every frame `class_run` selects has `__class__` among its locals. -/
theorem class_run_all_class :
    ∀ (frames : List Frame) (inside : Bool),
      ∀ f ∈ class_run frames inside, dictHasKey f "__class__" = true := by
  intro frames
  induction frames with
  | nil => intro inside f hf; simp [class_run] at hf
  | cons f0 rest ih =>
    intro inside f hf
    cases rest with
    | nil => simp [class_run] at hf
    | cons g rest2 =>
      by_cases hc : dictHasKey f0 "__class__" = true
      · rw [class_run, if_pos hc] at hf
        rcases List.mem_cons.mp hf with rfl | hmem
        · exact hc
        · exact ih true f hmem
      · rw [class_run, if_neg hc] at hf
        cases hi : inside with
        | false =>
          rw [hi] at hf
          simp only [Bool.not_false, if_true] at hf
          exact ih false f hf
        | true =>
          rw [hi] at hf
          simp at hf
/-- once inside the inheritance path, the selected frames are an initial
segment of the remaining chain. -/
theorem class_run_true_initial :
    ∀ frames : List Frame, ∃ post, frames = class_run frames true ++ post := by
  intro frames
  induction frames with
  | nil => exact ⟨[], by simp [class_run]⟩
  | cons f rest ih =>
    cases rest with
    | nil => exact ⟨[f], by simp [class_run]⟩
    | cons g rest2 =>
      by_cases hc : dictHasKey f "__class__" = true
      · obtain ⟨post, hpost⟩ := ih
        refine ⟨post, ?_⟩
        rw [class_run, if_pos hc, List.cons_append, ← hpost]
      · exact ⟨f :: g :: rest2, by rw [class_run, if_neg hc]; simp⟩

/-- the frames `class_run` selects form a contiguous segment of the chain. -/
theorem class_run_contiguous :
    ∀ (frames : List Frame) (inside : Bool),
      ∃ pre post, frames = pre ++ class_run frames inside ++ post := by
  intro frames
  induction frames with
  | nil => intro inside; exact ⟨[], [], by simp [class_run]⟩
  | cons f rest ih =>
    intro inside
    cases rest with
    | nil => exact ⟨[], [f], by simp [class_run]⟩
    | cons g rest2 =>
      by_cases hc : dictHasKey f "__class__" = true
      · obtain ⟨post, hpost⟩ := class_run_true_initial (g :: rest2)
        refine ⟨[], post, ?_⟩
        rw [class_run, if_pos hc]
        simp only [List.nil_append, List.cons_append]
        rw [← hpost]
      · cases hi : inside with
        | false =>
          obtain ⟨pre, post, hpp⟩ := ih false
          refine ⟨f :: pre, post, ?_⟩
          rw [class_run, if_neg hc]
          simp only [Bool.not_false, if_true, List.cons_append]
          rw [← hpp]
        | true =>
          refine ⟨[], f :: g :: rest2, ?_⟩
          rw [class_run, if_neg hc]
          simp

/-- C8: `collect_init_args` terminates on every finite frame chain (it is a
total structurally recursive function of the chain) and returns `path_args`
extended with `get_init_args` of each frame in the consecutive
inheritance-path run selected by `class_run`: the frames with `__class__`
among their locals, entered after skipping the pre-inheritance frames,
stopped at the first non-`__class__` frame once entered or where the parent
frame is missing; errors of `get_init_args` propagate. -/
theorem collect_init_args_spec (frames : List Frame) (path_args : List PyDict)
    (inside : Bool) :
    collect_init_args frames path_args inside =
      (collectEach (class_run frames inside)).map (fun ds => path_args ++ ds)
    ∧ (∀ f ∈ class_run frames inside, dictHasKey f "__class__" = true)
    ∧ (∃ pre post, frames = pre ++ class_run frames inside ++ post) :=
  ⟨collect_init_args_eq frames path_args inside,
    class_run_all_class frames inside,
    class_run_contiguous frames inside⟩

/-- witness for C8 on a two-frame chain whose first frame is an `__init__`
frame of a class with signature `(self)`. -/
theorem collect_init_args_spec_witness :
    collect_init_args
      [[("__class__", Val.pyclass [⟨"self", ParamKind.positionalOrKeyword⟩]),
        ("self", Val.int 0)], ([] : Frame)] [] false =
      (collectEach (class_run
        [[("__class__", Val.pyclass [⟨"self", ParamKind.positionalOrKeyword⟩]),
          ("self", Val.int 0)], ([] : Frame)] false)).map (fun ds => [] ++ ds)
    ∧ dictHasKey
        [("__class__", Val.pyclass [⟨"self", ParamKind.positionalOrKeyword⟩]),
         ("self", Val.int 0)] "__class__" = true := by
  have h := collect_init_args_spec
    [[("__class__", Val.pyclass [⟨"self", ParamKind.positionalOrKeyword⟩]),
      ("self", Val.int 0)], ([] : Frame)] [] false
  refine ⟨h.1, h.2.1 _ ?_⟩
  have hrun : class_run
      [[("__class__", Val.pyclass [⟨"self", ParamKind.positionalOrKeyword⟩]),
        ("self", Val.int 0)], ([] : Frame)] false =
      [[("__class__", Val.pyclass [⟨"self", ParamKind.positionalOrKeyword⟩]),
        ("self", Val.int 0)]] := rfl
  rw [hrun]
  exact List.mem_singleton.mpr rfl

/-! ### claim C10 -/

/-- writing through one holder does not change which components exist. -/
theorem writeHolder_holderPresent (m : LightningModule α) (a : String) (v : α)
    (h h2 : Holder) :
    holderPresent (writeHolder m a v h2) h = holderPresent m h := by
  cases h <;> cases h2 <;>
    simp [holderPresent, writeHolder, Option.isSome_map]

/-- writing a value through a holder that exists makes it readable there. -/
theorem readHolder_writeHolder_same (m : LightningModule α) (a : String) (v : α)
    (h : Holder) (hp : holderPresent m h = true) :
    readHolder (writeHolder m a v h) a h = some v := by
  cases h with
  | model => simp [readHolder, writeHolder, dictGet_dictSet_same]
  | hparams =>
    obtain ⟨hp2, hh⟩ := Option.isSome_iff_exists.mp
      (by simpa [holderPresent] using hp)
    simp [readHolder, writeHolder, hh, dictGet_dictSet_same]
  | datamodule =>
    obtain ⟨dm, hd⟩ := Option.isSome_iff_exists.mp
      (by simpa [holderPresent] using hp)
    simp [readHolder, writeHolder, hd, dictGet_dictSet_same]

/-- writing through one holder does not affect reads through another. -/
theorem readHolder_writeHolder_other (m : LightningModule α) (a : String) (v : α)
    (h h2 : Holder) (hne : h ≠ h2) :
    readHolder (writeHolder m a v h2) a h = readHolder m a h := by
  cases h <;> cases h2 <;> simp_all [readHolder, writeHolder]

/-- a fold of holder writes leaves unwritten holders unchanged. -/
theorem fold_write_unwritten (a : String) (v : α) :
    ∀ (hs : List Holder) (m : LightningModule α) (h : Holder), h ∉ hs →
      readHolder (hs.foldl (fun acc hh => writeHolder acc a v hh) m) a h =
        readHolder m a h := by
  intro hs
  induction hs with
  | nil => intro m h _; rfl
  | cons h0 t ih =>
    intro m h hnot
    rw [List.foldl_cons]
    have hne : h ≠ h0 := fun he => hnot (he ▸ List.mem_cons_self h0 t)
    rw [ih _ h (fun hm => hnot (List.mem_cons_of_mem h0 hm))]
    exact readHolder_writeHolder_other m a v h h0 hne

/-- after folding the writes, every written holder that exists reads back the
written value. -/
theorem fold_write_read (a : String) (v : α) :
    ∀ (hs : List Holder) (m : LightningModule α) (h : Holder),
      h ∈ hs → holderPresent m h = true →
      readHolder (hs.foldl (fun acc hh => writeHolder acc a v hh) m) a h
        = some v := by
  intro hs
  induction hs with
  | nil => intro m h hm _; cases hm
  | cons h0 t ih =>
    intro m h hm hpres
    rw [List.foldl_cons]
    by_cases hmt : h ∈ t
    · exact ih _ h hmt (by rw [writeHolder_holderPresent]; exact hpres)
    · have heq : h = h0 := by
        rcases List.mem_cons.mp hm with he | hmem
        · exact he
        · exact absurd hmem hmt
      subst heq
      rw [fold_write_unwritten a v t _ h hmt]
      exact readHolder_writeHolder_same m a v h hpres

/-- membership in the holder list, holder by holder. -/
theorem holders_mem (m : LightningModule α) (a : String) (h : Holder) :
    h ∈ _lightning_get_all_attr_holders m a ↔
      ((h = Holder.model ∧ dictHasKey m.attrs a = true)
      ∨ (h = Holder.hparams ∧ ∃ hp, m.hparams = some hp ∧ dictHasKey hp a = true)
      ∨ (h = Holder.datamodule ∧
          ∃ dm, m.datamodule = some dm ∧ dictHasKey dm a = true)) := by
  unfold _lightning_get_all_attr_holders
  cases hh : m.hparams <;> cases hd : m.datamodule <;> cases h <;>
    split_ifs <;> simp_all

/-- every holder in the holder list exists on the model. -/
theorem holders_present (m : LightningModule α) (a : String) (h : Holder)
    (hm : h ∈ _lightning_get_all_attr_holders m a) : holderPresent m h = true := by
  rcases (holders_mem m a h).mp hm with ⟨rfl, -⟩ | ⟨rfl, hp, hh, -⟩ | ⟨rfl, dm, hd, -⟩
  · rfl
  · simp [holderPresent, hh]
  · simp [holderPresent, hd]

/-- writing through a holder of the attribute does not change the holder
list. -/
theorem writeHolder_holders (m : LightningModule α) (a : String) (v : α)
    (h0 : Holder) (hm : h0 ∈ _lightning_get_all_attr_holders m a) :
    _lightning_get_all_attr_holders (writeHolder m a v h0) a =
      _lightning_get_all_attr_holders m a := by
  have hset : ∀ d : List (String × α), dictHasKey (dictSet d a v) a = true := by
    intro d
    simp [dictHasKey, dictGet_dictSet_same]
  rcases (holders_mem m a h0).mp hm with ⟨rfl, hk⟩ | ⟨rfl, hp, hh, hk⟩ | ⟨rfl, dm, hd, hk⟩
  · unfold _lightning_get_all_attr_holders writeHolder
    simp only [hset, hk]
  · unfold _lightning_get_all_attr_holders writeHolder
    rw [hh]
    simp [hset, hk]
  · unfold _lightning_get_all_attr_holders writeHolder
    rw [hd]
    simp [hset, hk]

/-- folding writes over a subset of the holder list keeps the holder list. -/
theorem fold_write_holders (a : String) (v : α) :
    ∀ (hs : List Holder) (m : LightningModule α),
      (∀ h ∈ hs, h ∈ _lightning_get_all_attr_holders m a) →
      _lightning_get_all_attr_holders
        (hs.foldl (fun acc hh => writeHolder acc a v hh) m) a =
      _lightning_get_all_attr_holders m a := by
  intro hs
  induction hs with
  | nil => intro m _; rfl
  | cons h0 t ih =>
    intro m hsub
    rw [List.foldl_cons]
    have hstep := writeHolder_holders m a v h0 (hsub h0 (List.mem_cons_self h0 t))
    rw [ih _ (fun h hm => by rw [hstep]; exact hsub h (List.mem_cons_of_mem h0 hm)),
      hstep]

/-- C10: when `lightning_hasattr` holds, `lightning_setattr` writes the value
into every holder of the attribute and a subsequent `lightning_getattr`
returns it; when it does not hold, both raise `AttributeError` and no state
is produced. -/
theorem lightning_attr_spec (m : LightningModule α) (a : String) (v : α) :
    (lightning_hasattr m a = true →
      ∃ m2, lightning_setattr m a v = Except.ok m2
        ∧ (∀ h ∈ _lightning_get_all_attr_holders m a, readHolder m2 a h = some v)
        ∧ lightning_getattr m2 a = Except.ok v)
    ∧ (lightning_hasattr m a = false →
      lightning_getattr m a = Except.error (PyError.attributeError (a ++
        " is neither stored in the model namespace nor the hparams namespace/dict, nor the datamodule."))
      ∧ lightning_setattr m a v = Except.error (PyError.attributeError (a ++
        " is neither stored in the model namespace nor the hparams namespace/dict, nor the datamodule."))) := by
  constructor
  · intro hhas
    have hne : _lightning_get_all_attr_holders m a ≠ [] := by
      intro h0
      unfold lightning_hasattr _lightning_get_first_attr_holder at hhas
      rw [h0] at hhas
      simp at hhas
    refine ⟨(_lightning_get_all_attr_holders m a).foldl
      (fun acc hh => writeHolder acc a v hh) m, ?_, ?_, ?_⟩
    · unfold lightning_setattr
      have hemp : (_lightning_get_all_attr_holders m a).isEmpty = false := by
        cases hl : _lightning_get_all_attr_holders m a with
        | nil => exact absurd hl hne
        | cons x t => rfl
      simp only [hemp, Bool.false_eq_true, if_false]
    · intro h hm
      exact fold_write_read a v _ m h hm (holders_present m a h hm)
    · have hfold := fold_write_holders a v (_lightning_get_all_attr_holders m a) m
        (fun h hm => hm)
      obtain ⟨hl, hlast⟩ : ∃ hl, (_lightning_get_all_attr_holders m a).getLast?
          = some hl := by
        apply Option.isSome_iff_exists.mp
        unfold lightning_hasattr _lightning_get_first_attr_holder at hhas
        exact hhas
      have hlmem : hl ∈ _lightning_get_all_attr_holders m a :=
        List.mem_of_mem_getLast? hlast
      have hread := fold_write_read a v _ m hl hlmem (holders_present m a hl hlmem)
      unfold lightning_getattr _lightning_get_first_attr_holder
      rw [hfold]
      simp only [hlast, hread]
  · intro hhas
    have h0 : _lightning_get_all_attr_holders m a = [] := by
      cases hlist : _lightning_get_all_attr_holders m a with
      | nil => rfl
      | cons x t =>
        exfalso
        unfold lightning_hasattr _lightning_get_first_attr_holder at hhas
        rw [hlist] at hhas
        simp at hhas
    constructor
    · unfold lightning_getattr _lightning_get_first_attr_holder
      rw [h0]
      rfl
    · unfold lightning_setattr
      rw [h0]
      rfl

/-- witness for C10 on a model holding "lr" in all three holders. -/
theorem lightning_attr_spec_witness :
    lightning_hasattr
      ({ attrs := [("lr", (1 : Int))], hparams := some [("lr", 2)],
         datamodule := some [("lr", 3)] } : LightningModule Int) "lr" = true
    ∧ (∃ m2, lightning_setattr
        ({ attrs := [("lr", (1 : Int))], hparams := some [("lr", 2)],
           datamodule := some [("lr", 3)] } : LightningModule Int) "lr" 9
        = Except.ok m2
      ∧ (∀ h ∈ _lightning_get_all_attr_holders
          ({ attrs := [("lr", (1 : Int))], hparams := some [("lr", 2)],
             datamodule := some [("lr", 3)] } : LightningModule Int) "lr",
          readHolder m2 "lr" h = some 9)
      ∧ lightning_getattr m2 "lr" = Except.ok 9) :=
  ⟨rfl, (lightning_attr_spec
    ({ attrs := [("lr", (1 : Int))], hparams := some [("lr", 2)],
       datamodule := some [("lr", 3)] } : LightningModule Int) "lr" 9).1 rfl⟩

end PLV
